import Mathlib

/-!
Verification of the order-book synchronizer, broadcast hub, session
controller and candle aggregation of the dtrader-crypto-2.0 repository.

The definitions below are a shallow embedding of the TypeScript source:

* `OrderBookManager` (src/core/OrderBookManager.ts and its later variant
  that adds the cache-overflow guard): `processUpdate`, `applyUpdate`,
  `updateLevel`, `initialize` (split into its two phases `startCaching`
  and `loadSnapshot`, the REST fetch being the only suspension point
  between them), `resync` (its synchronous prefix `resyncStart`; the
  re-initialization it schedules is the `startCaching`/`loadSnapshot`
  pair), and the read accessors.
* `BroadcastManager` (the channel-aware hub): the message-type → channel
  switch of `broadcast`, its recipient filter, and the
  subscribe/unsubscribe handlers.
* `DTrader`: the socket-close handler and the subscription sets issued by
  `start` and by `reconnectWebSocket`, and the candle aggregation
  (`updateCandle`, `closeCandle`).

Machine numbers of the source (JS numbers holding parsed prices, amounts
and sequence ids) are modelled as `ℚ` and `ℤ`; timestamps as `ℤ`.
-/

namespace DTraderSpec

/-- Synchronization state of the order-book manager (`enum SyncState`). -/
inductive SyncState where
  | NOT_INITIALIZED
  | CACHING_UPDATES
  | SYNCHRONIZED
deriving DecidableEq, Repr

/-- One price level (`interface OrderBookLevel`). -/
structure OrderBookLevel where
  price : ℚ
  amount : ℚ
deriving DecidableEq, Repr

/-- The local order book (`interface OrderBook`); the `symbol` field is
constant for a manager and omitted. -/
structure OrderBook where
  lastUpdateId : ℤ
  bids : List OrderBookLevel
  asks : List OrderBookLevel
  timestamp : ℤ
deriving DecidableEq, Repr

/-- One WebSocket diff (`interface OrderBookUpdate`). -/
structure OrderBookUpdate where
  firstUpdateId : ℤ
  lastUpdateId : ℤ
  bids : List OrderBookLevel
  asks : List OrderBookLevel
  timestamp : ℤ
deriving DecidableEq, Repr

/-- Sort direction passed to `updateLevel` ("asc" for asks, "desc" for bids). -/
inductive SortDir where
  | asc
  | desc
deriving DecidableEq, Repr

/-- The comparator handed to `levels.sort` in `updateLevel`:
`order === "desc" ? b.price - a.price : a.price - b.price`.  JS `sort` is
stable and orders by the sign of the comparator, which is exactly a stable
sort by this boolean "a may stay before b" relation. -/
def levelLE (dir : SortDir) (a b : OrderBookLevel) : Bool :=
  match dir with
  | .desc => decide (b.price ≤ a.price)
  | .asc => decide (a.price ≤ b.price)

/-- Embeds `OrderBookManager.updateLevel(levels, newLevel, order)`:
amount 0 removes the first level with the same price (no-op when absent);
a present price has its amount updated in place; an absent price is pushed
and the side re-sorted; finally the side is truncated to the configured
depth.  `levels.set i newLevel` matches the source's
`levels[index].amount = newLevel.amount` because `findIdx?` returns an
index whose level already carries `newLevel.price`. -/
def updateLevel (depth : ℕ) (dir : SortDir) (levels : List OrderBookLevel)
    (newLevel : OrderBookLevel) : List OrderBookLevel :=
  let idx? := levels.findIdx? (fun l => l.price = newLevel.price)
  if newLevel.amount = 0 then
    match idx? with
    | some i => levels.eraseIdx i
    | none => levels
  else
    let levels' :=
      match idx? with
      | some i => levels.set i newLevel
      | none => (levels ++ [newLevel]).mergeSort (levelLE dir)
    if levels'.length > depth then levels'.take depth else levels'

/-- Embeds `OrderBookManager.applyUpdate(update)` on a non-null book. -/
def applyUpdate (depth : ℕ) (b : OrderBook) (u : OrderBookUpdate) : OrderBook :=
  { b with
    bids := u.bids.foldl (fun ls l => updateLevel depth .desc ls l) b.bids
    asks := u.asks.foldl (fun ls l => updateLevel depth .asc ls l) b.asks
    lastUpdateId := u.lastUpdateId
    timestamp := u.timestamp }

/-- Embeds `private maxCacheSize: number = 1000` of the overflow-guarded manager. -/
def maxCacheSize : ℕ := 1000

/-- The mutable fields of `OrderBookManager`; the `depth` of the
configuration is passed separately. -/
structure OBMState where
  orderBook : Option OrderBook
  updateCache : List OrderBookUpdate
  syncState : SyncState
deriving DecidableEq, Repr

/-- A freshly constructed manager. -/
def initialOBM : OBMState :=
  { orderBook := none, updateCache := [], syncState := .NOT_INITIALIZED }

/-- The synchronous prefix of `OrderBookManager.resync()`: state to
`NOT_INITIALIZED`, book dropped, cache cleared.  The re-initialization it
then awaits is `startCaching` followed by `loadSnapshot`. -/
def resyncStart (_m : OBMState) : OBMState :=
  { syncState := .NOT_INITIALIZED, orderBook := none, updateCache := [] }

/-- Embeds `OrderBookManager.processUpdate(updateData)` (overflow-guarded
variant).  The only way the source can throw here is the non-null
assertion `this.orderBook!` in the `SYNCHRONIZED` branch, embedded as the
`.error` case; every other path returns normally. -/
def processUpdate (depth : ℕ) (m : OBMState) (u : OrderBookUpdate) :
    Except String OBMState :=
  if m.syncState = .CACHING_UPDATES ∧ m.updateCache.length > maxCacheSize then
    .ok (resyncStart m)
  else if m.syncState = .CACHING_UPDATES then
    .ok { m with updateCache := m.updateCache ++ [u] }
  else if m.syncState = .SYNCHRONIZED then
    match m.orderBook with
    | none => .error "null dereference: this.orderBook!"
    | some b =>
      if u.firstUpdateId > b.lastUpdateId + 1 then
        .ok (resyncStart m)
      else if u.lastUpdateId ≤ b.lastUpdateId then
        .ok m
      else
        .ok { m with orderBook := some (applyUpdate depth b u) }
  else
    .ok m

/-- Runs `processUpdate` over a list of diffs in arrival order. -/
def runDiffs (depth : ℕ) (m : OBMState) (ds : List OrderBookUpdate) :
    Except String OBMState :=
  match ds with
  | [] => .ok m
  | d :: ds' =>
    match processUpdate depth m d with
    | .error e => .error e
    | .ok m' => runDiffs depth m' ds'

/-- The REST snapshot consumed by `initialize` (`gateio.getOrderBook`). -/
structure Snapshot where
  id : ℤ
  bids : List OrderBookLevel
  asks : List OrderBookLevel
deriving DecidableEq, Repr

/-- The first phase of `OrderBookManager.initialize()`:
`this.syncState = SyncState.CACHING_UPDATES`. -/
def startCaching (m : OBMState) : OBMState :=
  { m with syncState := .CACHING_UPDATES }

/-- The rest of `OrderBookManager.initialize()` once the snapshot has
arrived: build the book from the snapshot, replay each cached diff whose
window satisfies `U ≤ baseId+1 ∧ u ≥ baseId+1`, clear the cache and enter
`SYNCHRONIZED`. -/
def loadSnapshot (depth : ℕ) (m : OBMState) (snap : Snapshot) (now : ℤ) :
    OBMState :=
  let baseId := snap.id
  let book0 : OrderBook :=
    { lastUpdateId := baseId, bids := snap.bids, asks := snap.asks
      timestamp := now }
  let book1 := m.updateCache.foldl
    (fun b u =>
      if u.firstUpdateId ≤ baseId + 1 ∧ baseId + 1 ≤ u.lastUpdateId then
        applyUpdate depth b u
      else b)
    book0
  { orderBook := some book1, updateCache := [], syncState := .SYNCHRONIZED }

/-- Embeds `OrderBookManager.isSynchronized()`. -/
def isSynchronized (m : OBMState) : Bool :=
  m.syncState = .SYNCHRONIZED

/-- Embeds `OrderBookManager.getBestBid()`. -/
def getBestBid (m : OBMState) : Option ℚ :=
  match m.orderBook with
  | none => none
  | some b =>
    match b.bids with
    | [] => none
    | l :: _ => some l.price

/-- Embeds `OrderBookManager.getBestAsk()`. -/
def getBestAsk (m : OBMState) : Option ℚ :=
  match m.orderBook with
  | none => none
  | some b =>
    match b.asks with
    | [] => none
    | l :: _ => some l.price

/-- Embeds `OrderBookManager.getSpread()`. -/
def getSpread (m : OBMState) : Option ℚ :=
  match getBestBid m, getBestAsk m with
  | some bid, some ask => some (ask - bid)
  | _, _ => none

/-- Embeds `OrderBookManager.getMidPrice()`. -/
def getMidPrice (m : OBMState) : Option ℚ :=
  match getBestBid m, getBestAsk m with
  | some bid, some ask => some ((bid + ask) / 2)
  | _, _ => none

/-- Embeds `OrderBookManager.getAsksVolume(levels?)`: note that with no book it
returns the number `0`, not `null`. -/
def getAsksVolume (depth : ℕ) (m : OBMState) (levels : Option ℕ) : ℚ :=
  match m.orderBook with
  | none => 0
  | some b =>
    (b.asks.take (levels.getD depth)).foldl (fun s a => s + a.price * a.amount) 0

/-- Embeds `OrderBookManager.getBidsVolume(levels?)`: with no book it returns the
number `0`, not `null`. -/
def getBidsVolume (depth : ℕ) (m : OBMState) (levels : Option ℕ) : ℚ :=
  match m.orderBook with
  | none => 0
  | some b =>
    (b.bids.take (levels.getD depth)).foldl (fun s a => s + a.price * a.amount) 0

/-- Result record of `getVolumeRatio`. -/
structure VolumeRatio where
  askVolume : ℚ
  bidVolume : ℚ
  askPercent : ℚ
  bidPercent : ℚ
deriving DecidableEq, Repr

/-- Embeds `OrderBookManager.getVolumeRatio(levels?)`. -/
def getVolumeRatio (depth : ℕ) (m : OBMState) (levels : Option ℕ) :
    Option VolumeRatio :=
  match m.orderBook with
  | none => none
  | some _ =>
    let d := levels.getD depth
    let askVolume := getAsksVolume depth m (some d)
    let bidVolume := getBidsVolume depth m (some d)
    let totalVolume := askVolume + bidVolume
    if totalVolume = 0 then none
    else
      some { askVolume := askVolume, bidVolume := bidVolume
             askPercent := askVolume / totalVolume * 100
             bidPercent := bidVolume / totalVolume * 100 }

/-- The read-accessor contract as the spec words it ("return `null`/absent
when unsynchronized"), for comparison with the source's `getAsksVolume`,
which instead returns the number `0` when there is no book. -/
def specGetAsksVolume (depth : ℕ) (m : OBMState) (levels : Option ℕ) :
    Option ℚ :=
  if m.syncState = .SYNCHRONIZED then some (getAsksVolume depth m levels)
  else none

/-! ### BroadcastManager (the channel-aware hub) -/

/-- Embeds `enum MessageType` (src/types). -/
inductive MessageType where
  | connect
  | disconnect
  | ping
  | pong
  | subscribe
  | unsubscribe
  | log
  | tick
  | orderbook
  | balance
  | indicator
  | subscribed
  | unsubscribed
  | error
deriving DecidableEq, Repr

/-- Embeds `enum SubscriptionChannel` (src/types). -/
inductive SubscriptionChannel where
  | system
  | logs
  | ticks
  | orderbook
  | balance
  | indicators
deriving DecidableEq, Repr

/-- The `switch (message.type)` at the top of `BroadcastManager.broadcast`:
only `LOG`, `TICK`, `ORDERBOOK` and `BALANCE` are mapped to a channel;
every other type (including `INDICATOR`) leaves `channel` at `null`. -/
def messageChannel : MessageType → Option SubscriptionChannel
  | .log => some .logs
  | .tick => some .ticks
  | .orderbook => some .orderbook
  | .balance => some .balance
  | _ => none

/-- The per-client data of the hub (`interface ClientInfo`); transport
handle and liveness timestamps are irrelevant to routing and omitted. -/
structure ClientInfo where
  id : ℕ
  subscriptions : List SubscriptionChannel
deriving DecidableEq, Repr

/-- Embeds `channels.forEach(ch => client.subscriptions.add(ch))` of
`handleSubscribe`, with JS `Set.add` semantics. -/
def addChannels (subs channels : List SubscriptionChannel) :
    List SubscriptionChannel :=
  channels.foldl (fun s ch => if ch ∈ s then s else s ++ [ch]) subs

/-- The mutation `handleSubscribe` performs on the requesting client. -/
def handleSubscribe (c : ClientInfo) (channels : List SubscriptionChannel) :
    ClientInfo :=
  { c with subscriptions := addChannels c.subscriptions channels }

/-- The mutation `handleUnsubscribe` performs on the requesting client:
`channels.forEach(ch => client.subscriptions.delete(ch))`.  No channel is
special-cased. -/
def handleUnsubscribe (c : ClientInfo) (channels : List SubscriptionChannel) :
    ClientInfo :=
  { c with subscriptions := c.subscriptions.filter (fun ch => ch ∉ channels) }

/-- The send condition inside `broadcast`'s `clients.forEach`:
`channel === null || client.subscriptions.has(channel)`. -/
def deliveredTo (c : ClientInfo) (t : MessageType) : Bool :=
  match messageChannel t with
  | none => true
  | some ch => c.subscriptions.contains ch

/-- Which clients `BroadcastManager.broadcast` sends a message of type `t`
to (the zero-client early return included). -/
def broadcastRecipients (clients : List ClientInfo) (t : MessageType) :
    List ClientInfo :=
  if clients.length = 0 then []
  else clients.filter (fun c => deliveredTo c t)

/-! ### DTrader session controller -/

/-- Embeds `enum EngineState` (DTrader.ts). -/
inductive EngineState where
  | STOPPED
  | STARTING
  | RUNNING
  | STOPPING
deriving DecidableEq, Repr

/-- The three exchange subscriptions DTrader can issue. -/
inductive ExchangeSub where
  | balances
  | ticker
  | orderBookUpdate
deriving DecidableEq, Repr

/-- The subscriptions issued by `DTrader.start()`: `subscribeToBalances()`,
`subscribeToTicker()`, then (with an order-book manager configured)
`subscribeToOrderBookUpdates()`. -/
def startSubscriptions : List ExchangeSub :=
  [.balances, .ticker, .orderBookUpdate]

/-- The subscriptions re-issued by `DTrader.reconnectWebSocket()` after a
successful reconnect: `subscribeToBalances()` and `subscribeToTicker()`
only. -/
def reconnectSubscriptions : List ExchangeSub :=
  [.balances, .ticker]

/-- The literal delay of both `setTimeout(..., 5000)` reconnect schedules
(the socket-close handler and the reconnect-failure retry); DTrader keeps
no attempt counter, so the delay cannot grow. -/
def reconnectDelayMs : ℕ := 5000

/-- The `close` handler installed by `connectWebSocket`: while the engine
is `RUNNING` it schedules `reconnectWebSocket` after `reconnectDelayMs`,
otherwise nothing is scheduled. -/
def onSocketClose (s : EngineState) : Option ℕ :=
  if s = .RUNNING then some reconnectDelayMs else none

/-- The `catch` branch of `reconnectWebSocket`: a failed reconnect retries
after the same fixed delay while `RUNNING`. -/
def onReconnectFailure (s : EngineState) : Option ℕ :=
  if s = .RUNNING then some reconnectDelayMs else none

/-! ### Candle aggregation (DTrader.updateCandle / closeCandle) -/

/-- A ticker update (`interface Tick`); the fields `updateCandle` never
reads (`high24h`, `low24h`, `changePercent`) are omitted. -/
structure Tick where
  symbol : String
  price : ℚ
  volume : ℚ
  timestamp : ℕ
deriving DecidableEq, Repr

/-- Embeds `interface Candle`; the source field `open` is a Lean keyword and is
embedded as `openPrice`. -/
structure Candle where
  symbol : String
  timestamp : ℕ
  openPrice : ℚ
  high : ℚ
  low : ℚ
  close : ℚ
  volume : ℚ
  interval : String
deriving DecidableEq, Repr

/-- Embeds `private candleInterval: number = 60000`. -/
def candleIntervalMs : ℕ := 60000

/-- Embeds `private maxCandleHistory: number = 200`. -/
def maxCandleHistory : ℕ := 200

/-- The candle-related mutable fields of DTrader. -/
structure CandleAgg where
  currentCandle : Option Candle
  candleHistory : List Candle
deriving DecidableEq, Repr

/-- Embeds `DTrader.closeCandle(candle)`: append to the bounded history (the
strategy dispatch has no effect on this state). -/
def closeCandle (st : CandleAgg) (c : Candle) : CandleAgg :=
  let hist := st.candleHistory ++ [c]
  { st with
    candleHistory := if hist.length > maxCandleHistory then hist.drop 1 else hist }

/-- Embeds `Math.floor(tick.timestamp / this.candleInterval) * this.candleInterval`. -/
def candleBucket (ts : ℕ) : ℕ :=
  ts / candleIntervalMs * candleIntervalMs

/-- The fresh candle opened from a tick by `updateCandle`. -/
def newCandleFromTick (t : Tick) (bucket : ℕ) : Candle :=
  { symbol := t.symbol, timestamp := bucket, openPrice := t.price
    high := t.price, low := t.price, close := t.price, volume := t.volume
    interval := "1m" }

/-- Embeds `DTrader.updateCandle(tick)`: a tick in a new bucket closes the open
candle and opens a fresh one; a tick in the same bucket updates
high/low/close in place and OVERWRITES `volume` with `tick.volume`. -/
def updateCandle (st : CandleAgg) (t : Tick) : CandleAgg :=
  let candleStartTime := candleBucket t.timestamp
  match st.currentCandle with
  | none =>
    { st with currentCandle := some (newCandleFromTick t candleStartTime) }
  | some c =>
    if c.timestamp = candleStartTime then
      { st with
        currentCandle := some
          { c with high := max c.high t.price, low := min c.low t.price
                   close := t.price, volume := t.volume } }
    else
      let st' := closeCandle st c
      { st' with currentCandle := some (newCandleFromTick t candleStartTime) }

/-- Runs `updateCandle` over a list of ticks in arrival order. -/
def runTicks (st : CandleAgg) (ts : List Tick) : CandleAgg :=
  ts.foldl updateCandle st

/-! ### Helper lemmas -/

/-- Folding a function guarded by a predicate equals folding over the
filtered list. -/
theorem foldl_guard_eq_foldl_filter {α β : Type _} (p : α → Bool)
    (f : β → α → β) :
    ∀ (l : List α) (b : β),
      l.foldl (fun acc a => if p a then f acc a else acc) b =
        (l.filter p).foldl f b := by
  intro l
  induction l with
  | nil => intro b; rfl
  | cons a l ih =>
    intro b
    by_cases h : p a = true
    · simp [List.filter_cons, h, ih]
    · simp only [Bool.not_eq_true] at h
      simp [List.filter_cons, h, ih]

/-- The `loadSnapshot` phase applies the cached diffs through the
window-guarded fold. -/
theorem loadSnapshot_eq (depth : ℕ) (m : OBMState) (snap : Snapshot)
    (now : ℤ) :
    loadSnapshot depth m snap now =
      { orderBook := some
          ((m.updateCache.filter fun u =>
              decide (u.firstUpdateId ≤ snap.id + 1) &&
                decide (snap.id + 1 ≤ u.lastUpdateId)).foldl
            (fun b u => applyUpdate depth b u)
            { lastUpdateId := snap.id, bids := snap.bids, asks := snap.asks
              timestamp := now })
        updateCache := []
        syncState := .SYNCHRONIZED } := by
  have hfun :
      (fun (b : OrderBook) (u : OrderBookUpdate) =>
        if u.firstUpdateId ≤ snap.id + 1 ∧ snap.id + 1 ≤ u.lastUpdateId then
          applyUpdate depth b u
        else b) =
      (fun (b : OrderBook) (u : OrderBookUpdate) =>
        if (decide (u.firstUpdateId ≤ snap.id + 1) &&
            decide (snap.id + 1 ≤ u.lastUpdateId)) = true then
          applyUpdate depth b u
        else b) := by
    funext b u
    by_cases h1 : u.firstUpdateId ≤ snap.id + 1 <;>
      by_cases h2 : snap.id + 1 ≤ u.lastUpdateId <;>
        simp [h1, h2]
  rw [← foldl_guard_eq_foldl_filter]
  unfold loadSnapshot
  dsimp only
  rw [hfun]

/-! ### C2 -/

/-- C2: after `loadSnapshot` with base id `baseId`, exactly the cached
diffs with `firstUpdateId ≤ baseId+1 ≤ lastUpdateId` are applied to the
snapshot book, in original arrival order (the fold over the
order-preserving `filter`); all other cached diffs are discarded, the
cache is emptied and the state becomes `SYNCHRONIZED`. -/
theorem initialize_applies_exactly_bridge_diffs (depth : ℕ) (m : OBMState)
    (snap : Snapshot) (now : ℤ) :
    (loadSnapshot depth m snap now).orderBook = some
        ((m.updateCache.filter fun u =>
            decide (u.firstUpdateId ≤ snap.id + 1) &&
              decide (snap.id + 1 ≤ u.lastUpdateId)).foldl
          (fun b u => applyUpdate depth b u)
          { lastUpdateId := snap.id, bids := snap.bids, asks := snap.asks
            timestamp := now }) ∧
      (loadSnapshot depth m snap now).updateCache = [] ∧
      (loadSnapshot depth m snap now).syncState = .SYNCHRONIZED := by
  rw [loadSnapshot_eq]
  exact ⟨rfl, rfl, rfl⟩

/-! ### C1 -/

/-- C1: a diff with `U > lastUpdateId + 1` arriving in `SYNCHRONIZED`
triggers the full resync: the book is dropped, the cache cleared and the
state leaves `SYNCHRONIZED`; while re-initialization is pending no diff is
applied (in `NOT_INITIALIZED` diffs are discarded, in `CACHING_UPDATES`
they are queued and the book is untouched), the sequence re-enters
`CACHING_UPDATES` via `startCaching`, and `loadSnapshot` then returns the
manager to `SYNCHRONIZED`. -/
theorem gap_triggers_full_resync (depth : ℕ) (m : OBMState) (b : OrderBook)
    (u : OrderBookUpdate) (hs : m.syncState = .SYNCHRONIZED)
    (hb : m.orderBook = some b) (hgap : b.lastUpdateId + 1 < u.firstUpdateId) :
    processUpdate depth m u = .ok (resyncStart m) ∧
      (resyncStart m).orderBook = none ∧
      (resyncStart m).updateCache = [] ∧
      (resyncStart m).syncState = .NOT_INITIALIZED ∧
      (∀ u' : OrderBookUpdate,
        processUpdate depth (resyncStart m) u' = .ok (resyncStart m)) ∧
      (startCaching (resyncStart m)).syncState = .CACHING_UPDATES ∧
      (∀ (mc : OBMState) (u' : OrderBookUpdate),
        mc.syncState = .CACHING_UPDATES →
        mc.updateCache.length ≤ maxCacheSize →
        processUpdate depth mc u' =
          .ok { mc with updateCache := mc.updateCache ++ [u'] }) ∧
      (∀ (mc : OBMState) (snap : Snapshot) (now : ℤ),
        (loadSnapshot depth mc snap now).syncState = .SYNCHRONIZED) := by
  refine ⟨?_, rfl, rfl, rfl, ?_, rfl, ?_, ?_⟩
  · simp [processUpdate, hs, hb, hgap]
  · intro u'
    simp [processUpdate, resyncStart]
  · intro mc u' hmc hlen
    simp [processUpdate, hmc, Nat.not_lt.mpr hlen]
  · intro mc snap now
    rw [loadSnapshot_eq]

/-- A concrete synchronized manager used by witnesses. -/
def bookX : OrderBook :=
  { lastUpdateId := 100, bids := [{ price := 10, amount := 1 }]
    asks := [{ price := 11, amount := 2 }], timestamp := 0 }

/-- A concrete synchronized state. -/
def mSyncX : OBMState :=
  { orderBook := some bookX, updateCache := [], syncState := .SYNCHRONIZED }

/-- A diff whose `U` leaves a gap over `bookX` (105 > 100 + 1). -/
def uGapX : OrderBookUpdate :=
  { firstUpdateId := 105, lastUpdateId := 106, bids := [], asks := []
    timestamp := 1 }

/-- Witness for C1 at `mSyncX` and the gapped diff `uGapX`. -/
theorem gap_triggers_full_resync_witness :
    processUpdate 10 mSyncX uGapX = .ok (resyncStart mSyncX) ∧
      (resyncStart mSyncX).orderBook = none ∧
      (resyncStart mSyncX).updateCache = [] ∧
      (resyncStart mSyncX).syncState = .NOT_INITIALIZED :=
  have h := gap_triggers_full_resync 10 mSyncX bookX uGapX rfl rfl (by decide)
  ⟨h.1, h.2.1, h.2.2.1, h.2.2.2.1⟩

/-! ### C8 -/

/-- C8: in `CACHING_UPDATES` every ingested diff is appended to the cache
while the cache holds at most `maxCacheSize = 1000` entries; once the
cache exceeds that bound the diff triggers the full resync (book dropped,
cache cleared, state to `NOT_INITIALIZED`) instead of being applied or
appended. -/
theorem caching_appends_until_overflow_then_resync (depth : ℕ) (m : OBMState)
    (u : OrderBookUpdate) (hc : m.syncState = .CACHING_UPDATES) :
    maxCacheSize = 1000 ∧
      (m.updateCache.length ≤ maxCacheSize →
        processUpdate depth m u =
          .ok { m with updateCache := m.updateCache ++ [u] }) ∧
      (maxCacheSize < m.updateCache.length →
        processUpdate depth m u = .ok (resyncStart m) ∧
          (resyncStart m).updateCache = [] ∧
          (resyncStart m).orderBook = none ∧
          (resyncStart m).syncState = .NOT_INITIALIZED) := by
  refine ⟨rfl, ?_, ?_⟩
  · intro hlen
    simp [processUpdate, hc, Nat.not_lt.mpr hlen]
  · intro hlen
    exact ⟨by simp [processUpdate, hc, hlen], rfl, rfl, rfl⟩

/-- A concrete caching state with an empty cache. -/
def mCachingX : OBMState :=
  { orderBook := none, updateCache := [], syncState := .CACHING_UPDATES }

/-- Witness for C8: at an empty cache the diff is appended. -/
theorem caching_appends_until_overflow_then_resync_witness :
    processUpdate 10 mCachingX uGapX =
      .ok { mCachingX with updateCache := mCachingX.updateCache ++ [uGapX] } :=
  (caching_appends_until_overflow_then_resync 10 mCachingX uGapX rfl).2.1
    (by decide)

/-! ### C6 -/

/-- C6: on any state satisfying the running invariant (a synchronized
manager has a book), `processUpdate` returns normally — no exception
crosses the public boundary — and the two protocol-level anomalies, a
sequence gap while synchronized and a cache overflow while caching, are
both answered by the internal resync transition. -/
theorem processUpdate_never_throws (depth : ℕ) (m : OBMState)
    (u : OrderBookUpdate)
    (hwf : m.syncState = .SYNCHRONIZED → m.orderBook ≠ none) :
    (∃ m', processUpdate depth m u = .ok m') ∧
      (∀ b : OrderBook, m.orderBook = some b → m.syncState = .SYNCHRONIZED →
        b.lastUpdateId + 1 < u.firstUpdateId →
        processUpdate depth m u = .ok (resyncStart m)) ∧
      (m.syncState = .CACHING_UPDATES → maxCacheSize < m.updateCache.length →
        processUpdate depth m u = .ok (resyncStart m)) := by
  refine ⟨?_, ?_, ?_⟩
  · cases hstate : m.syncState with
    | NOT_INITIALIZED => exact ⟨m, by simp [processUpdate, hstate]⟩
    | CACHING_UPDATES =>
      by_cases hlen : maxCacheSize < m.updateCache.length
      · exact ⟨resyncStart m, by simp [processUpdate, hstate, hlen]⟩
      · exact ⟨{ m with updateCache := m.updateCache ++ [u] },
          by simp [processUpdate, hstate, hlen]⟩
    | SYNCHRONIZED =>
      obtain ⟨b, hb⟩ := Option.ne_none_iff_exists'.mp (hwf hstate)
      by_cases hgap : b.lastUpdateId + 1 < u.firstUpdateId
      · exact ⟨resyncStart m, by simp [processUpdate, hstate, hb, hgap]⟩
      · by_cases hstale : u.lastUpdateId ≤ b.lastUpdateId
        · exact ⟨m, by simp [processUpdate, hstate, hb, hgap, hstale]⟩
        · exact ⟨{ m with orderBook := some (applyUpdate depth b u) },
            by simp [processUpdate, hstate, hb, hgap, hstale]⟩
  · intro b hb hsy hgap
    simp [processUpdate, hsy, hb, hgap]
  · intro hcm hov
    simp [processUpdate, hcm, hov]

/-- Witness for C6 at the synchronized example state. -/
theorem processUpdate_never_throws_witness :
    ∃ m', processUpdate 10 mSyncX uGapX = .ok m' :=
  (processUpdate_never_throws 10 mSyncX uGapX (by decide)).1

/-! ### C3 -/

/-- One `processUpdate` step can only keep the surviving book's
`lastUpdateId` non-decreasing (a resync drops the book instead). -/
theorem processUpdate_lastUpdateId_mono (depth : ℕ) {m m' : OBMState}
    {u : OrderBookUpdate} (h : processUpdate depth m u = .ok m')
    (b' : OrderBook) (hb' : m'.orderBook = some b') :
    ∃ b, m.orderBook = some b ∧ b.lastUpdateId ≤ b'.lastUpdateId := by
  cases hstate : m.syncState with
  | NOT_INITIALIZED =>
    simp [processUpdate, hstate] at h
    subst h
    exact ⟨b', hb', le_refl _⟩
  | CACHING_UPDATES =>
    by_cases hlen : maxCacheSize < m.updateCache.length
    · simp [processUpdate, hstate, hlen] at h
      rw [← h] at hb'
      simp [resyncStart] at hb'
    · simp [processUpdate, hstate, hlen] at h
      rw [← h] at hb'
      exact ⟨b', hb', le_refl _⟩
  | SYNCHRONIZED =>
    cases hbook : m.orderBook with
    | none => simp [processUpdate, hstate, hbook] at h
    | some b0 =>
      by_cases hgap : b0.lastUpdateId + 1 < u.firstUpdateId
      · simp [processUpdate, hstate, hbook, hgap] at h
        rw [← h] at hb'
        simp [resyncStart] at hb'
      · by_cases hstale : u.lastUpdateId ≤ b0.lastUpdateId
        · simp [processUpdate, hstate, hbook, hgap, hstale] at h
          subst h
          rw [hbook] at hb'
          injection hb' with he
          exact ⟨b0, rfl, by rw [he]⟩
        · simp [processUpdate, hstate, hbook, hgap, hstale] at h
          rw [← h] at hb'
          simp at hb'
          refine ⟨b0, rfl, ?_⟩
          rw [← hb']
          exact le_of_lt (lt_of_not_le hstale)

/-- Lemma `processUpdate_lastUpdateId_mono` folded over a diff sequence. -/
theorem runDiffs_lastUpdateId_mono (depth : ℕ) :
    ∀ (ds : List OrderBookUpdate) (m m' : OBMState),
      runDiffs depth m ds = .ok m' →
      ∀ b', m'.orderBook = some b' →
        ∃ b, m.orderBook = some b ∧ b.lastUpdateId ≤ b'.lastUpdateId := by
  intro ds
  induction ds with
  | nil =>
    intro m m' h b' hb'
    simp [runDiffs] at h
    subst h
    exact ⟨b', hb', le_refl _⟩
  | cons d ds ih =>
    intro m m' h b' hb'
    unfold runDiffs at h
    cases hp : processUpdate depth m d with
    | error e => rw [hp] at h; cases h
    | ok m1 =>
      rw [hp] at h
      obtain ⟨b1, hb1, hle1⟩ := ih m1 m' h b' hb'
      obtain ⟨b0, hb0, hle0⟩ := processUpdate_lastUpdateId_mono depth hp b1 hb1
      exact ⟨b0, hb0, le_trans hle0 hle1⟩

/-- C3: while `SYNCHRONIZED`, a well-formed diff (`U ≤ u`) whose `u` does
not exceed the book's `lastUpdateId` leaves the whole manager unchanged,
and over any diff sequence the surviving book's `lastUpdateId` never
decreases. -/
theorem synced_monotone_and_stale_noop (depth : ℕ) (m : OBMState)
    (b : OrderBook) (hs : m.syncState = .SYNCHRONIZED)
    (hb : m.orderBook = some b) :
    (∀ u : OrderBookUpdate, u.firstUpdateId ≤ u.lastUpdateId →
      u.lastUpdateId ≤ b.lastUpdateId → processUpdate depth m u = .ok m) ∧
      (∀ (ds : List OrderBookUpdate) (m' : OBMState) (b' : OrderBook),
        runDiffs depth m ds = .ok m' → m'.orderBook = some b' →
        b.lastUpdateId ≤ b'.lastUpdateId) := by
  constructor
  · intro u hUu hstale
    have hgap : ¬ b.lastUpdateId + 1 < u.firstUpdateId := by omega
    simp [processUpdate, hs, hb, hgap, hstale]
  · intro ds m' b' hrun hb'
    obtain ⟨b0, hb0, hle⟩ := runDiffs_lastUpdateId_mono depth ds m m' hrun b' hb'
    rw [hb] at hb0
    injection hb0 with he
    rw [he]
    exact hle

/-- A stale diff over `bookX` (`u = 99 ≤ 100`). -/
def uStaleX : OrderBookUpdate :=
  { firstUpdateId := 98, lastUpdateId := 99
    bids := [{ price := 10, amount := 0 }], asks := [], timestamp := 2 }

/-- Witness for C3: the stale diff leaves `mSyncX` unchanged. -/
theorem synced_monotone_and_stale_noop_witness :
    processUpdate 10 mSyncX uStaleX = .ok mSyncX :=
  (synced_monotone_and_stale_noop 10 mSyncX bookX rfl rfl).1 uStaleX
    (by decide) (by decide)

/-! ### C9 -/

/-- C9 counterexample: on the fresh (unsynchronized) manager the spec's
reading demands an absent volume, but the source's `getAsksVolume` and
`getBidsVolume` return the number `0`. -/
theorem volume_accessors_zero_not_null_counterexample :
    isSynchronized initialOBM = false ∧
      specGetAsksVolume 10 initialOBM none = none ∧
      getAsksVolume 10 initialOBM none = 0 ∧
      getBidsVolume 10 initialOBM none = 0 := by
  decide

/-- Invariant preservation: `processUpdate` keeps "no book outside SYNCHRONIZED". -/
theorem processUpdate_preserves_nullbook (d : ℕ) (m₁ m₂ : OBMState)
    (u : OrderBookUpdate)
    (hinv : m₁.syncState ≠ .SYNCHRONIZED → m₁.orderBook = none)
    (h : processUpdate d m₁ u = .ok m₂) :
    m₂.syncState ≠ .SYNCHRONIZED → m₂.orderBook = none := by
  intro hne
  cases hstate : m₁.syncState with
  | NOT_INITIALIZED =>
    simp [processUpdate, hstate] at h
    rw [← h]
    exact hinv (by rw [hstate]; intro hx; cases hx)
  | CACHING_UPDATES =>
    have hnone : m₁.orderBook = none :=
      hinv (by rw [hstate]; intro hx; cases hx)
    by_cases hlen : maxCacheSize < m₁.updateCache.length
    · simp [processUpdate, hstate, hlen] at h
      rw [← h]
      rfl
    · simp [processUpdate, hstate, hlen] at h
      rw [← h]
      exact hnone
  | SYNCHRONIZED =>
    cases hbook : m₁.orderBook with
    | none => simp [processUpdate, hstate, hbook] at h
    | some b =>
      by_cases hgap : b.lastUpdateId + 1 < u.firstUpdateId
      · simp [processUpdate, hstate, hbook, hgap] at h
        rw [← h]
        rfl
      · by_cases hstale : u.lastUpdateId ≤ b.lastUpdateId
        · simp [processUpdate, hstate, hbook, hgap, hstale] at h
          rw [← h] at hne
          exact absurd hstate hne
        · simp [processUpdate, hstate, hbook, hgap, hstale] at h
          rw [← h] at hne
          exact absurd rfl hne

/-- C9 amended: with no book (which `processUpdate` guarantees in every
unsynchronized state, last conjunct) the best-bid/best-ask/spread/
mid-price/volume-ratio accessors return `none`, while the two notional
volume accessors return the number `0` rather than an absent value. -/
theorem accessors_absent_without_book (depth : ℕ) (m : OBMState)
    (h : m.orderBook = none) :
    getBestBid m = none ∧ getBestAsk m = none ∧ getSpread m = none ∧
      getMidPrice m = none ∧
      (∀ lv, getVolumeRatio depth m lv = none) ∧
      (∀ lv, getAsksVolume depth m lv = 0) ∧
      (∀ lv, getBidsVolume depth m lv = 0) ∧
      (∀ (d : ℕ) (m₁ m₂ : OBMState) (u : OrderBookUpdate),
        (m₁.syncState ≠ .SYNCHRONIZED → m₁.orderBook = none) →
        processUpdate d m₁ u = .ok m₂ →
        (m₂.syncState ≠ .SYNCHRONIZED → m₂.orderBook = none)) := by
  refine ⟨?_, ?_, ?_, ?_, ?_, ?_, ?_, processUpdate_preserves_nullbook⟩
  · simp [getBestBid, h]
  · simp [getBestAsk, h]
  · simp [getSpread, getBestBid, h]
  · simp [getMidPrice, getBestBid, h]
  · intro lv; simp [getVolumeRatio, h]
  · intro lv; simp [getAsksVolume, h]
  · intro lv; simp [getBidsVolume, h]

/-- Witness for the amended C9 at the caching example state. -/
theorem accessors_absent_without_book_witness :
    getBestBid mCachingX = none ∧ getBestAsk mCachingX = none ∧
      getSpread mCachingX = none ∧ getMidPrice mCachingX = none :=
  have h := accessors_absent_without_book 10 mCachingX rfl
  ⟨h.1, h.2.1, h.2.2.1, h.2.2.2.1⟩

/-! ### C10 -/

/-- Over a run of ticks that all fall into the open candle's bucket, the
candle's volume tracks the LAST tick's `volume` field. -/
theorem runTicks_volume_is_last (tl : Tick) :
    ∀ ts : List Tick, ts.getLast? = some tl →
      ∀ (st : CandleAgg) (c : Candle), st.currentCandle = some c →
        (∀ x ∈ ts, candleBucket x.timestamp = c.timestamp) →
        ∃ c', (runTicks st ts).currentCandle = some c' ∧
          c'.timestamp = c.timestamp ∧ c'.volume = tl.volume := by
  intro ts
  induction ts with
  | nil => intro hlast; simp at hlast
  | cons t ts ih =>
    intro hlast st c hc hbuckets
    have hbt : candleBucket t.timestamp = c.timestamp :=
      hbuckets t (List.mem_cons_self t ts)
    have hstep : (updateCandle st t).currentCandle = some
        { c with high := max c.high t.price, low := min c.low t.price
                 close := t.price, volume := t.volume } := by
      simp [updateCandle, hc, hbt]
    cases ts with
    | nil =>
      simp only [List.getLast?_singleton, Option.some.injEq] at hlast
      subst hlast
      exact ⟨_, hstep, rfl, rfl⟩
    | cons t2 ts2 =>
      have hlast2 : (t2 :: ts2).getLast? = some tl := by
        rw [List.getLast?_cons_cons] at hlast
        exact hlast
      have hrun : runTicks st (t :: t2 :: ts2) =
          runTicks (updateCandle st t) (t2 :: ts2) := rfl
      rw [hrun]
      obtain ⟨c', hc', hts, hv⟩ := ih hlast2 (updateCandle st t) _ hstep
        (by intro x hx; exact hbuckets x (List.mem_cons_of_mem t hx))
      exact ⟨c', hc', hts, hv⟩

/-- C10: a tick in the open candle's bucket overwrites the candle's
`volume` with the tick's (cumulative 24h) `volume` field instead of
accumulating; hence after any same-bucket run the open candle carries the
last tick's volume, and the close path appends the candle to history
unchanged, so a closed candle's volume is the last contributing tick's
`volume`. -/
theorem candle_volume_overwritten (st : CandleAgg) (c : Candle) (t : Tick)
    (hc : st.currentCandle = some c)
    (hb : candleBucket t.timestamp = c.timestamp) :
    (updateCandle st t).currentCandle = some
        { c with high := max c.high t.price, low := min c.low t.price
                 close := t.price, volume := t.volume } ∧
      (updateCandle st t).candleHistory = st.candleHistory ∧
      (∀ (ts : List Tick) (tl : Tick), ts.getLast? = some tl →
        (∀ x ∈ ts, candleBucket x.timestamp = c.timestamp) →
        ∃ c', (runTicks st ts).currentCandle = some c' ∧
          c'.timestamp = c.timestamp ∧ c'.volume = tl.volume) ∧
      (∀ t' : Tick, candleBucket t'.timestamp ≠ c.timestamp →
        st.candleHistory.length < maxCandleHistory →
        (updateCandle st t').candleHistory = st.candleHistory ++ [c]) := by
  refine ⟨?_, ?_, ?_, ?_⟩
  · simp [updateCandle, hc, hb]
  · simp [updateCandle, hc, hb]
  · intro ts tl hlast hbuckets
    exact runTicks_volume_is_last tl ts hlast st c hc hbuckets
  · intro t' hne hlen
    have hif : ¬ c.timestamp = candleBucket t'.timestamp := fun h => hne h.symm
    have hlen2 : ¬ maxCandleHistory < st.candleHistory.length + 1 := by omega
    simp only [updateCandle, hc, closeCandle, List.length_append,
      List.length_singleton]
    rw [if_neg hif]
    simp only [gt_iff_lt]
    rw [if_neg hlen2]

/-- A concrete open candle and same-bucket tick for the C10 witness. -/
def candleX : Candle :=
  { symbol := "ETH_USDT", timestamp := 0, openPrice := 10, high := 12
    low := 9, close := 11, volume := 5, interval := "1m" }

/-- A tick in `candleX`'s minute bucket carrying a different volume. -/
def tickX : Tick :=
  { symbol := "ETH_USDT", price := 13, volume := 7, timestamp := 30000 }

/-- Witness for C10: the same-bucket tick replaces the volume 5 by 7. -/
theorem candle_volume_overwritten_witness :
    (updateCandle { currentCandle := some candleX, candleHistory := [] }
        tickX).currentCandle = some
      { candleX with high := max candleX.high tickX.price
                     low := min candleX.low tickX.price
                     close := tickX.price, volume := tickX.volume } :=
  (candle_volume_overwritten
    { currentCandle := some candleX, candleHistory := [] } candleX tickX rfl
    (by decide)).1

/-! ### C5 -/

/-- A hub client with no subscriptions at all. -/
def clientX : ClientInfo := { id := 0, subscriptions := [] }

/-- C5 counterexample: `INDICATOR` has no case in `broadcast`'s channel
switch, so a client subscribed to nothing — in particular not to
`indicators` — still receives an indicator event. -/
theorem indicator_bypasses_channel_gating :
    clientX ∈ broadcastRecipients [clientX] .indicator ∧
      SubscriptionChannel.indicators ∉ clientX.subscriptions ∧
      messageChannel .indicator = none := by
  decide

/-- C5 amended: events whose type is mapped to a channel (`log`, `tick`,
`orderbook`, `balance`) are withheld from clients not subscribed to that
channel; every connected client receives every channel-less event (the
system-category messages, but also `indicator` events, which the switch
fails to map); and an unsubscribe request — `system` included — never
affects the delivery of channel-less events. -/
theorem broadcast_channel_gating (clients : List ClientInfo) (c : ClientInfo)
    (t : MessageType) :
    (∀ ch, messageChannel t = some ch → ch ∉ c.subscriptions →
      c ∉ broadcastRecipients clients t) ∧
      (messageChannel t = none → c ∈ clients →
        c ∈ broadcastRecipients clients t) ∧
      (∀ chans, messageChannel t = none →
        deliveredTo (handleUnsubscribe c chans) t = true ∧
          deliveredTo c t = true) := by
  refine ⟨?_, ?_, ?_⟩
  · intro ch hch hns hmem
    unfold broadcastRecipients at hmem
    by_cases hz : clients.length = 0
    · simp [hz] at hmem
    · simp only [hz, if_false] at hmem
      have hd := (List.mem_filter.mp hmem).2
      simp only [deliveredTo, hch] at hd
      exact hns (by simpa using hd)
  · intro hnone hmem
    unfold broadcastRecipients
    have hz : ¬ clients.length = 0 := by
      intro hz
      rw [List.length_eq_zero] at hz
      subst hz
      cases hmem
    simp only [hz, if_false]
    refine List.mem_filter.mpr ⟨hmem, ?_⟩
    simp only [deliveredTo, hnone]
  · intro chans hnone
    constructor <;> simp only [deliveredTo, hnone]

/-- A client subscribed to `ticks` only. -/
def clientTicksX : ClientInfo := { id := 1, subscriptions := [.ticks] }

/-- Witness for the amended C5: the ticks-only client is excluded from a
`log` event, receives a channel-less `connect` event, and keeps receiving
channel-less events after unsubscribing from `system`. -/
theorem broadcast_channel_gating_witness :
    clientTicksX ∉ broadcastRecipients [clientTicksX] .log ∧
      clientTicksX ∈ broadcastRecipients [clientTicksX] .connect ∧
      deliveredTo (handleUnsubscribe clientTicksX [.system]) .connect = true :=
  have h := broadcast_channel_gating [clientTicksX] clientTicksX .log
  have h2 := broadcast_channel_gating [clientTicksX] clientTicksX .connect
  ⟨h.1 .logs rfl (by decide), h2.2.1 rfl (by decide),
    (h2.2.2 [.system] rfl).1⟩

/-! ### C7 -/

/-- C7 counterexample: `start()` issues all three exchange subscriptions
but `reconnectWebSocket()` re-issues only balances and ticker — the
order-book diff subscription does not survive a reconnect. -/
theorem reconnect_misses_orderbook_subscription :
    ExchangeSub.orderBookUpdate ∈ startSubscriptions ∧
      ExchangeSub.orderBookUpdate ∉ reconnectSubscriptions := by
  decide

/-- C7 amended: a socket close while `RUNNING` schedules a reconnect after
the fixed 5000 ms backoff (a failed attempt retries after the same fixed
delay, so there is no growth), and a successful reconnect re-issues the
balances and ticker subscriptions only — not the order-book diff
subscription. -/
theorem reconnect_fixed_backoff_partial_resubscribe :
    (∀ s : EngineState, s = .RUNNING →
        onSocketClose s = some reconnectDelayMs ∧
          onReconnectFailure s = some reconnectDelayMs) ∧
      (∀ s : EngineState, s ≠ .RUNNING → onSocketClose s = none) ∧
      reconnectDelayMs = 5000 ∧
      reconnectSubscriptions = [ExchangeSub.balances, ExchangeSub.ticker] ∧
      ExchangeSub.orderBookUpdate ∉ reconnectSubscriptions ∧
      startSubscriptions =
        [ExchangeSub.balances, ExchangeSub.ticker,
          ExchangeSub.orderBookUpdate] := by
  refine ⟨?_, ?_, rfl, rfl, by decide, rfl⟩
  · intro s hs
    subst hs
    exact ⟨rfl, rfl⟩
  · intro s hs
    simp [onSocketClose, hs]

/-- Witness for the amended C7 at the `RUNNING` state. -/
theorem reconnect_fixed_backoff_partial_resubscribe_witness :
    onSocketClose .RUNNING = some reconnectDelayMs ∧
      onReconnectFailure .RUNNING = some reconnectDelayMs :=
  (reconnect_fixed_backoff_partial_resubscribe).1 .RUNNING rfl

/-! ### C4 -/

/-- A side ordered by the comparator `updateLevel` sorts with:
descending prices for bids, ascending for asks. -/
def sideSorted (dir : SortDir) (levels : List OrderBookLevel) : Prop :=
  levels.Pairwise (fun a b => levelLE dir a b = true)

instance (dir : SortDir) (levels : List OrderBookLevel) :
    Decidable (sideSorted dir levels) :=
  inferInstanceAs (Decidable (levels.Pairwise _))

/-- The comparator is transitive. -/
theorem levelLE_trans (dir : SortDir) (a b c : OrderBookLevel)
    (hab : levelLE dir a b) (hbc : levelLE dir b c) : levelLE dir a c := by
  cases dir <;>
    · simp only [levelLE, decide_eq_true_eq] at *
      exact le_trans (by assumption) (by assumption)

/-- The comparator is total. -/
theorem levelLE_total (dir : SortDir) (a b : OrderBookLevel) :
    levelLE dir a b || levelLE dir b a := by
  cases dir <;>
    · simp only [levelLE, Bool.or_eq_true, decide_eq_true_eq]
      exact le_total _ _

/-- Erasing at the index `findIdx?` found equals filtering the key out,
when the keys are unique. -/
theorem eraseIdx_findIdx_eq_filter (p : ℚ) :
    ∀ (levels : List OrderBookLevel),
      (levels.map (fun l => l.price)).Nodup →
      ∀ i, levels.findIdx? (fun l => l.price = p) = some i →
        levels.eraseIdx i = levels.filter (fun l => l.price ≠ p) := by
  intro levels
  induction levels with
  | nil => intro _ i h; simp [List.findIdx?] at h
  | cons l ls ih =>
    intro hnd i hidx
    rw [List.findIdx?_cons] at hidx
    by_cases hl : l.price = p
    · simp [hl] at hidx
      have hi0 : i = 0 := by omega
      subst hi0
      have habs : ∀ x ∈ ls, x.price ≠ p := by
        intro x hx he
        have : l.price ∈ ls.map (fun l => l.price) :=
          List.mem_map.mpr ⟨x, hx, by rw [he, hl]⟩
        exact (List.nodup_cons.mp hnd).1 this
      rw [List.eraseIdx_zero, List.filter_cons_of_neg (by simp [hl]),
        List.tail_cons, eq_comm, List.filter_eq_self]
      intro a ha
      simpa using habs a ha
    · simp [hl] at hidx
      obtain ⟨j, hj, hij⟩ := hidx
      have hji : i = j + 1 := by omega
      subst hji
      rw [List.eraseIdx_cons_succ, List.filter_cons_of_pos (by simp [hl]),
        ih (List.nodup_cons.mp hnd).2 j hj]

/-- Setting at the index `findIdx?` found equals a pointwise map, when the
keys are unique: the in-place update reorders nothing. -/
theorem set_findIdx_eq_map (nl : OrderBookLevel) :
    ∀ (levels : List OrderBookLevel),
      (levels.map (fun l => l.price)).Nodup →
      ∀ i, levels.findIdx? (fun l => l.price = nl.price) = some i →
        levels.set i nl =
          levels.map (fun l => if l.price = nl.price then nl else l) := by
  intro levels
  induction levels with
  | nil => intro _ i h; simp [List.findIdx?] at h
  | cons l ls ih =>
    intro hnd i hidx
    rw [List.findIdx?_cons] at hidx
    by_cases hl : l.price = nl.price
    · simp [hl] at hidx
      have hi0 : i = 0 := by omega
      subst hi0
      have habs : ∀ x ∈ ls, ¬ x.price = nl.price := by
        intro x hx he
        have : l.price ∈ ls.map (fun l => l.price) :=
          List.mem_map.mpr ⟨x, hx, by rw [he, hl]⟩
        exact (List.nodup_cons.mp hnd).1 this
      rw [List.set_cons_zero, List.map_cons, if_pos hl, eq_comm]
      congr 1
      have hmap : List.map (fun l => if l.price = nl.price then nl else l) ls =
          List.map id ls :=
        List.map_congr_left (fun x hx => by rw [if_neg (habs x hx)]; rfl)
      rw [hmap, List.map_id]
    · simp [hl] at hidx
      obtain ⟨j, hj, hij⟩ := hidx
      have hji : i = j + 1 := by omega
      subst hji
      rw [List.set_cons_succ, List.map_cons, if_neg hl,
        ih (List.nodup_cons.mp hnd).2 j hj]

/-- C4: level application to one side.  With `nl.amount = 0` the exact
price is removed when present (filter form, under unique prices) and
nothing changes when absent; a nonzero amount on a present price updates
that entry in place (pointwise map — no reordering); a nonzero amount on
an absent price re-sorts the side with the new level included (descending
for bids, ascending for asks), the new level being present whenever the
side had room; and a side within the depth bound stays within it. -/
theorem updateLevel_semantics (depth : ℕ) (dir : SortDir)
    (levels : List OrderBookLevel) (nl : OrderBookLevel) :
    (nl.amount = 0 → (∀ l ∈ levels, l.price ≠ nl.price) →
      updateLevel depth dir levels nl = levels) ∧
      (nl.amount = 0 → (levels.map (fun l => l.price)).Nodup →
        updateLevel depth dir levels nl =
          levels.filter (fun l => l.price ≠ nl.price)) ∧
      (nl.amount ≠ 0 → (levels.map (fun l => l.price)).Nodup →
        levels.length ≤ depth →
        nl.price ∈ levels.map (fun l => l.price) →
        updateLevel depth dir levels nl =
          levels.map (fun l => if l.price = nl.price then nl else l)) ∧
      (nl.amount ≠ 0 → (∀ l ∈ levels, l.price ≠ nl.price) →
        sideSorted dir levels →
        sideSorted dir (updateLevel depth dir levels nl) ∧
          (levels.length < depth → nl ∈ updateLevel depth dir levels nl)) ∧
      (levels.length ≤ depth →
        (updateLevel depth dir levels nl).length ≤ depth) := by
  refine ⟨?_, ?_, ?_, ?_, ?_⟩
  · intro hz habs
    have hidx : levels.findIdx? (fun l => l.price = nl.price) = none := by
      rw [List.findIdx?_eq_none_iff]
      intro l hl
      simpa using habs l hl
    simp [updateLevel, hidx, hz]
  · intro hz hnd
    cases hidx : levels.findIdx? (fun l => l.price = nl.price) with
    | none =>
      have habs := List.findIdx?_eq_none_iff.mp hidx
      simp only [updateLevel, hidx, hz, if_true]
      rw [eq_comm, List.filter_eq_self]
      intro a ha
      simpa using fun he => by simpa [he] using habs a ha
    | some i =>
      simp only [updateLevel, hidx, hz, if_true]
      exact eraseIdx_findIdx_eq_filter nl.price levels hnd i hidx
  · intro hnz hnd hlen hmem
    obtain ⟨l0, hl0, hlp⟩ := List.mem_map.mp hmem
    have hidx := List.findIdx?_eq_some_of_exists
      (p := fun l => l.price = nl.price) ⟨l0, hl0, by simp [hlp]⟩
    simp only [updateLevel, hidx, hnz, if_false]
    rw [if_neg (by simpa using Nat.not_lt.mpr hlen)]
    exact set_findIdx_eq_map nl levels hnd _ hidx
  · intro hnz habs hsorted
    have hidx : levels.findIdx? (fun l => l.price = nl.price) = none := by
      rw [List.findIdx?_eq_none_iff]
      intro l hl
      simpa using habs l hl
    have hsorted' : ((levels ++ [nl]).mergeSort (levelLE dir)).Pairwise
        (fun a b => levelLE dir a b = true) := by
      simpa using List.sorted_mergeSort
        (fun a b c hab hbc => levelLE_trans dir a b c hab hbc)
        (fun a b => levelLE_total dir a b) (levels ++ [nl])
    constructor
    · simp only [updateLevel, hidx, hnz, if_false]
      by_cases hov : ((levels ++ [nl]).mergeSort (levelLE dir)).length > depth
      · rw [if_pos hov]
        exact hsorted'.sublist (List.take_sublist depth _)
      · rw [if_neg hov]
        exact hsorted'
    · intro hroom
      have hlen' : ¬ ((levels ++ [nl]).mergeSort (levelLE dir)).length > depth := by
        rw [List.length_mergeSort, List.length_append, List.length_singleton]
        omega
      simp only [updateLevel, hidx, hnz, if_false]
      rw [if_neg hlen']
      rw [List.mem_mergeSort]
      exact List.mem_append_right levels (List.mem_singleton.mpr rfl)
  · intro hlen
    have htrunc : ∀ ls : List OrderBookLevel,
        (if ls.length > depth then ls.take depth else ls).length ≤ depth := by
      intro ls
      by_cases hov : ls.length > depth
      · rw [if_pos hov]
        simp [List.length_take]
      · rw [if_neg hov]
        omega
    by_cases hz : nl.amount = 0
    · cases hidx : levels.findIdx? (fun l => l.price = nl.price) with
      | none => simpa [updateLevel, hidx, hz] using hlen
      | some i =>
        simp only [updateLevel, hidx, hz, if_true]
        exact le_trans (List.length_eraseIdx_le levels i) hlen
    · simp only [updateLevel, hz, if_false]
      cases hidx : levels.findIdx? (fun l => l.price = nl.price) with
      | none => exact htrunc ((levels ++ [nl]).mergeSort (levelLE dir))
      | some i => exact htrunc (levels.set i nl)

/-- Witness for C4: depth 2, a sorted two-level descending bid side, and a
new mid price to insert. -/
theorem updateLevel_semantics_witness :
    sideSorted .desc (updateLevel 2 .desc
        [{ price := 3, amount := 1 }, { price := 1, amount := 1 }]
        { price := 2, amount := 5 }) ∧
      (updateLevel 2 .desc
        [{ price := 3, amount := 1 }, { price := 1, amount := 1 }]
        { price := 2, amount := 5 }).length ≤ 2 :=
  have h := updateLevel_semantics 2 .desc
    [{ price := 3, amount := 1 }, { price := 1, amount := 1 }]
    { price := 2, amount := 5 }
  ⟨(h.2.2.2.1 (by decide) (by decide) (by decide)).1, h.2.2.2.2 (by decide)⟩

end DTraderSpec
